import Mathlib

set_option maxHeartbeats 1000000

/-!
Verification development for the runbook core (include.go of ikawaha/runn).

The Go code is shallowly embedded: dynamically typed Go values become the
closed variant type `GoVal`; Go maps become association lists built by an
overwriting insert (`mapSet`), matching the semantics of `res[k] = v`;
fallible Go functions return `Except String`; functions that can also
panic return `GoOutcome`.  External collaborators (curl/grpcurl/access-log
parsers, the YAML lexer/parser, environment interpolation) are taken as
parameters, since their code is not part of this repository.
-/

namespace Runn

/-- Closed variant type for the dynamically typed Go values (`any`) that
flow through `normalize` and the runbook model.  Each constructor mirrors
one case of the type switch in `normalize`; `vOther` stands for the
remaining scalar values (floats, times, ...) that fall through to the
default case, and `vErr` is an error value produced by `fmt.Errorf`. -/
inductive GoVal where
  | vNil
  | vBool (b : Bool)
  | vInt (n : Int)
  | vInt64 (n : Int)
  | vUInt64 (n : Nat)
  | vStr (s : String)
  | vErr (msg : String)
  | vOther (tag : Nat)
  | vList (xs : List GoVal)
  | vMapAny (xs : List (GoVal × GoVal))
  | vMapStr (xs : List (String × GoVal))
  | vListMapStr (xs : List (List (String × GoVal)))
  | vMapSlice (xs : List (GoVal × GoVal))

mutual
/-- Model of Go `fmt.Sprintf` with the default-format verb on a value,
used by `normalize` to stringify map keys. -/
def goFmt : GoVal → String
  | .vNil => "<nil>"
  | .vBool b => if b then "true" else "false"
  | .vInt n => toString n
  | .vInt64 n => toString n
  | .vUInt64 n => toString n
  | .vStr s => s
  | .vErr msg => msg
  | .vOther tag => toString tag
  | .vList xs => "[" ++ goFmtList xs ++ "]"
  | .vMapAny xs => "map[" ++ goFmtPairs xs ++ "]"
  | .vMapStr xs => "map[" ++ goFmtSPairs xs ++ "]"
  | .vListMapStr xs => "[" ++ goFmtMaps xs ++ "]"
  | .vMapSlice xs => "[" ++ goFmtItems xs ++ "]"

def goFmtList : List GoVal → String
  | [] => ""
  | [x] => goFmt x
  | x :: rest => goFmt x ++ " " ++ goFmtList rest

def goFmtPairs : List (GoVal × GoVal) → String
  | [] => ""
  | [(k, v)] => goFmt k ++ ":" ++ goFmt v
  | (k, v) :: rest => goFmt k ++ ":" ++ goFmt v ++ " " ++ goFmtPairs rest

def goFmtSPairs : List (String × GoVal) → String
  | [] => ""
  | [(k, v)] => k ++ ":" ++ goFmt v
  | (k, v) :: rest => k ++ ":" ++ goFmt v ++ " " ++ goFmtSPairs rest

def goFmtMaps : List (List (String × GoVal)) → String
  | [] => ""
  | [m] => "map[" ++ goFmtSPairs m ++ "]"
  | m :: rest => "map[" ++ goFmtSPairs m ++ "]" ++ " " ++ goFmtMaps rest

def goFmtItems : List (GoVal × GoVal) → String
  | [] => ""
  | [(k, v)] => "\x7b" ++ goFmt k ++ " " ++ goFmt v ++ "\x7d"
  | (k, v) :: rest => "\x7b" ++ goFmt k ++ " " ++ goFmt v ++ "\x7d" ++ " " ++ goFmtItems rest
end

/-- Model of the Go map assignment `res[k] = v` on an association list:
overwrite the value if the key is present, otherwise append the binding. -/
def mapSet (m : List (String × GoVal)) (k : String) (v : GoVal) : List (String × GoVal) :=
  if k ∈ m.map Prod.fst then
    m.map (fun p => if p.1 = k then (k, v) else p)
  else m ++ [(k, v)]

/-- Builds a Go map from a sequence of `res[k] = v` assignments, i.e. the
final contents of `res` after the `for ... range` loops in `normalize`. -/
def buildMap (ps : List (String × GoVal)) : List (String × GoVal) :=
  ps.foldl (fun acc p => mapSet acc p.1 p.2) []

/-- Model of the Go type assertion `.(map[string]any)` on a `GoVal`. -/
def asMapStr : GoVal → Option (List (String × GoVal))
  | .vMapStr m => some m
  | _ => none

mutual
/-- Model of the Go function `normalize` (include.go): one case per arm of
its type switch.  `normList` is the `[]any` loop, `normAnyPairs` the
`map[any]any` loop, `normStrPairs` the `map[string]any` loop,
`normSlicePairs` the `yaml.MapSlice` loop and `normMapList` the
`[]map[string]any` loop with its type assertion and error result. -/
def normalize : GoVal → GoVal
  | .vList xs => .vList (normList xs)
  | .vMapAny xs => .vMapStr (buildMap (normAnyPairs xs))
  | .vMapStr xs => .vMapStr (buildMap (normStrPairs xs))
  | .vListMapStr xs =>
      match normMapList xs with
      | .ok res => .vListMapStr res
      | .error msg => .vErr msg
  | .vMapSlice xs => .vMapStr (buildMap (normSlicePairs xs))
  | .vInt n => if n < 0 then .vInt64 n else .vUInt64 n.toNat
  | .vNil => .vNil
  | .vBool b => .vBool b
  | .vInt64 n => .vInt64 n
  | .vUInt64 n => .vUInt64 n
  | .vStr s => .vStr s
  | .vErr msg => .vErr msg
  | .vOther tag => .vOther tag

def normList : List GoVal → List GoVal
  | [] => []
  | x :: rest => normalize x :: normList rest

def normAnyPairs : List (GoVal × GoVal) → List (String × GoVal)
  | [] => []
  | (k, v) :: rest => (goFmt k, normalize v) :: normAnyPairs rest

def normStrPairs : List (String × GoVal) → List (String × GoVal)
  | [] => []
  | (k, v) :: rest => (k, normalize v) :: normStrPairs rest

def normSlicePairs : List (GoVal × GoVal) → List (String × GoVal)
  | [] => []
  | (k, v) :: rest => (goFmt k, normalize v) :: normSlicePairs rest

def normMapList : List (List (String × GoVal)) → Except String (List (List (String × GoVal)))
  | [] => .ok []
  | m :: rest =>
      match asMapStr (normalize (.vMapStr m)) with
      | none => .error "failed to normalize"
      | some r =>
        match normMapList rest with
        | .ok rs => .ok (r :: rs)
        | .error msg => .error msg
decreasing_by
  all_goals
    first
      | decreasing_tactic
      | ((try simp_arith);
         (try (have hpos : 0 < sizeOf rest := by cases rest <;> simp_arith
               omega)))
end

/-- Model of Go `strings.HasPrefix` on character lists (kept executable
down to the kernel, unlike the byte-position-based library function). -/
def strStarts (s pre : String) : Bool := pre.toList.isPrefixOf s.toList

/-- Model of Go `strings.HasSuffix`. -/
def strEnds (s suf : String) : Bool := suf.toList.isSuffixOf s.toList

/-- Model of Go `strings.Contains` for a single-character needle. -/
def strContains (s : String) (c : Char) : Bool := s.toList.contains c

/-- Model of Go `strings.Split` on character lists, for a non-empty
separator (the only way this repository calls it with a possibly-empty
separator is an empty URL host, where Go would instead split the string
into single characters). -/
def splitList (sep : List Char) : Nat → List Char → List (List Char)
  | _, [] => [[]]
  | 0, xs => [xs]
  | fuel + 1, c :: rest =>
    if sep.length > 0 ∧ sep.isPrefixOf (c :: rest) then
      [] :: splitList sep fuel ((c :: rest).drop sep.length)
    else
      match splitList sep fuel rest with
      | [] => [[c]]
      | seg :: segs => (c :: seg) :: segs

/-- Model of Go `strings.Split`, returning strings (the fuel argument of
`splitList`, the input length, is always sufficient: each step consumes
at least one character). -/
def strSplit (s sep : String) : List String :=
  (splitList sep.toList s.toList.length s.toList).map (fun cs => String.mk cs)

/-- Model of the Go struct `runbook` (include.go).  Maps are association
lists; `steps` is the `[]yaml.MapSlice`, `stepKeys` the parallel key list
used in keyed (`useMap`) mode, and `loop` is `nil` or a raw value. -/
structure Runbook where
  desc : String
  runners : List (String × GoVal)
  vars : List (String × GoVal)
  steps : List (List (GoVal × GoVal))
  debug : Bool
  interval : String
  ifCond : String
  skipTest : Bool
  loop : Option GoVal
  concurrency : String
  force : Bool
  useMap : Bool
  stepKeys : List String

/-- Model of the Go constructor `NewRunbook`. -/
def NewRunbook (desc : String) : Runbook :=
  { desc := if desc = "" then "Generated by `runn new`" else desc
    runners := []
    vars := []
    steps := []
    debug := false
    interval := ""
    ifCond := ""
    skipTest := false
    loop := none
    concurrency := ""
    force := false
    useMap := false
    stepKeys := [] }

/-- Result of the scanning loop of `setRunner`: either the key of an
existing entry whose value equals the destination (the early return), or
the three per-family counters once the loop completes. -/
inductive ScanRes where
  | found (key : String)
  | counts (hc gc dc : Nat)

/-- Model of the `for k, v := range rb.Runners` loop of `setRunner`:
non-string values are skipped, a value equal to the destination returns
its key, and string values are counted by prefix family. -/
def scanRunners (dsn : String) : List (String × GoVal) → ScanRes
  | [] => .counts 0 0 0
  | (k, v) :: rest =>
    match v with
    | .vStr vv =>
      if vv = dsn then .found k
      else
        match scanRunners dsn rest with
        | .found k2 => .found k2
        | .counts hc gc dc =>
          if strStarts vv "http" then .counts (hc + 1) gc dc
          else if strStarts vv "grpc" then .counts hc (gc + 1) dc
          else .counts hc gc (dc + 1)
    | _ => scanRunners dsn rest

/-- Model of the Go method `runbook.setRunner` (include.go): returns the
allocated (or reused) key and the updated runbook. -/
def setRunner (rb : Runbook) (dsn : String) : String × Runbook :=
  match scanRunners dsn rb.runners with
  | .found k => (k, rb)
  | .counts hc gc dc =>
    let key :=
      if strStarts dsn "http" then
        (if hc > 0 then "req" ++ toString (hc + 1) else "req")
      else if strStarts dsn "grpc" then
        (if gc > 0 then "greq" ++ toString (gc + 1) else "greq")
      else
        (if dc > 0 then "db" ++ toString (dc + 1) else "db")
    (key, { rb with runners := mapSet rb.runners key (.vStr dsn) })

/-- Model of one execution of `setRunner` when the Go runtime's
randomized map iteration enumerates the entries of `rb.Runners` in the
given order: every permutation of the entries is a legal order, and
`setRunner` is the execution at the association-list order
(`setRunner_eq_iter`). -/
def setRunnerIter (order : List (String × GoVal)) (rb : Runbook) (dsn : String) :
    String × Runbook :=
  match scanRunners dsn order with
  | .found k => (k, rb)
  | .counts hc gc dc =>
    let key :=
      if strStarts dsn "http" then
        (if hc > 0 then "req" ++ toString (hc + 1) else "req")
      else if strStarts dsn "grpc" then
        (if gc > 0 then "greq" ++ toString (gc + 1) else "greq")
      else
        (if dc > 0 then "db" ++ toString (dc + 1) else "db")
    (key, { rb with runners := mapSet rb.runners key (.vStr dsn) })

/-- Count of runner entries whose string value is http-family. -/
def countHttp (rs : List (String × GoVal)) : Nat :=
  rs.countP (fun p =>
    match p.2 with
    | .vStr s => strStarts s "http"
    | _ => false)

/-- Count of runner entries whose string value is grpc-family. -/
def countGrpc (rs : List (String × GoVal)) : Nat :=
  rs.countP (fun p =>
    match p.2 with
    | .vStr s => !strStarts s "http" && strStarts s "grpc"
    | _ => false)

/-- Count of runner entries whose string value is in the default family. -/
def countOther (rs : List (String × GoVal)) : Nat :=
  rs.countP (fun p =>
    match p.2 with
    | .vStr s => !strStarts s "http" && !strStarts s "grpc"
    | _ => false)

/-- The key `setRunner` assigns for a fresh destination, stated directly
from the per-family counts (the form the claim uses). -/
def allocKey (rs : List (String × GoVal)) (dsn : String) : String :=
  if strStarts dsn "http" then
    (if countHttp rs > 0 then "req" ++ toString (countHttp rs + 1) else "req")
  else if strStarts dsn "grpc" then
    (if countGrpc rs > 0 then "greq" ++ toString (countGrpc rs + 1) else "greq")
  else
    (if countOther rs > 0 then "db" ++ toString (countOther rs + 1) else "db")

/-- The size of the family that the destination `dsn` belongs to. -/
def famCount (rs : List (String × GoVal)) (dsn : String) : Nat :=
  if strStarts dsn "http" then countHttp rs
  else if strStarts dsn "grpc" then countGrpc rs
  else countOther rs

/-- Abstract HTTP request handle produced by the external request
builders (`curlreq`, `net/http`); its contents are irrelevant here. -/
structure HReq where
  tag : Nat

/-- Relevant outcome of the external `curlreq.NewRequest` call. -/
structure CurlParsed where
  req : HReq
  urlStr : String
  urlHost : String

/-- Relevant outcome of the external `grpcurlreq.Parse` call. -/
structure GrpcurlParsed where
  addr : String
  method : String
  subCmd : String
  headers : List (String × List String)
  messages : List GoVal

/-- Relevant outcome of the external `axslogparser.GuessParser` call. -/
structure AxsLog where
  method : String
  requestURI : String
  userAgent : String

/-- The external collaborators used by step synthesis, passed as
parameters because their code is not part of this repository:
the curl / grpcurl / access-log parsers, `http.NewRequest`, header
mutation, and `CreateHTTPStepMapSlice`. -/
structure ExternalFns where
  curlParse : List String → Except String CurlParsed
  grpcurlParse : List String → Except String GrpcurlParsed
  axsParse : String → Except String AxsLog
  httpNewRequest : String → String → Except String HReq
  addHeader : HReq → String → String → HReq
  createHTTPStep : String → HReq → Except String (List (GoVal × GoVal))

/-- Model of the Go method `runbook.curlToStep`; the returned pair is the
error status together with the (possibly mutated) runbook. -/
def curlToStep (fns : ExternalFns) (rb : Runbook) (inp : List String) :
    Except String Unit × Runbook :=
  match fns.curlParse inp with
  | .error e => (.error e, rb)
  | .ok p =>
    let splitted := strSplit p.urlStr p.urlHost
    let dsn := splitted.headD "" ++ p.urlHost
    let kr := setRunner rb dsn
    match fns.createHTTPStep kr.1 p.req with
    | .error e => (.error e, kr.2)
    | .ok step => (.ok (), { kr.2 with steps := kr.2.steps ++ [step] })

/-- Model of the Go method `runbook.grpcurlToStep`. -/
def grpcurlToStep (fns : ExternalFns) (rb : Runbook) (inp : List String) :
    Except String Unit × Runbook :=
  match fns.grpcurlParse inp with
  | .error e => (.error e, rb)
  | .ok p =>
    if p.addr = "" ∨ p.method = "" ∨ p.subCmd ≠ "" then
      (.error "unsupported grpcurl command", rb)
    else
      let dsn := "grpc://" ++ p.addr
      let kr := setRunner rb dsn
      let h := p.headers.map (fun kv => (kv.1, kv.2.headD ""))
      let hm0 : List (GoVal × GoVal) :=
        if h.length > 0 then
          [(.vStr "headers", .vMapStr (h.map (fun kv => (kv.1, GoVal.vStr kv.2))))]
        else []
      let hm1 :=
        if p.messages.length = 1 then hm0 ++ [(.vStr "message", p.messages.headD .vNil)]
        else if p.messages.length > 1 then hm0 ++ [(.vStr "messages", .vList p.messages)]
        else hm0
      let hmv : GoVal := if hm1.isEmpty then .vNil else .vMapSlice hm1
      let step : List (GoVal × GoVal) :=
        [(.vStr kr.1, GoVal.vMapSlice [(.vStr p.method, hmv)])]
      (.ok (), { kr.2 with steps := kr.2.steps ++ [step] })

/-- Model of the Go method `runbook.axsLogToStep`.  Note that the dummy
runner is registered before the request is built, so a later failure
leaves the inserted runner behind, exactly as in the source. -/
def axsLogToStep (fns : ExternalFns) (rb : Runbook) (inp : List String) :
    Except String Unit × Runbook :=
  match fns.axsParse (String.intercalate " " inp) with
  | .error e => (.error e, rb)
  | .ok l =>
    let kr := setRunner rb "https://dummy.example.com"
    match fns.httpNewRequest l.method l.requestURI with
    | .error e => (.error e, kr.2)
    | .ok req =>
      let req2 := if l.userAgent ≠ "" then fns.addHeader req "User-Agent" l.userAgent else req
      match fns.createHTTPStep kr.1 req2 with
      | .error e => (.error e, kr.2)
      | .ok step => (.ok (), { kr.2 with steps := kr.2.steps ++ [step] })

/-- Modelled from the spec: the shell-runner key used by synthesized exec
steps (`execRunnerKey` is declared elsewhere in the repository). -/
def execRunnerKey : String := "exec"

/-- Model of Go `strings.TrimSuffix(s, newline)`. -/
def trimNl (s : String) : String := if strEnds s "\n" then String.mk s.toList.dropLast else s

/-- Model of Go `fmt.Sprintf` with the Go-syntax verb on a string: a
double-quoted, escaped string literal. -/
def goQuote (s : String) : String :=
  "\"" ++ String.join (s.toList.map (fun c =>
    if c = '\\' then "\\\\"
    else if c = '"' then "\\\""
    else if c = '\n' then "\\n"
    else if c = '\t' then "\\t"
    else String.mk [c])) ++ "\""

/-- Model of the Go function `joinCommands`. -/
def joinCommands (inp : List String) : String :=
  String.intercalate " " (inp.map (fun i =>
    let j := trimNl i
    if strContains j ' ' then goQuote j else j)) ++ "\n"

/-- Model of the Go method `runbook.cmdToStep`. -/
def cmdToStep (rb : Runbook) (inp : List String) :
    Except String Unit × Runbook :=
  let step : List (GoVal × GoVal) :=
    [(.vStr execRunnerKey, GoVal.vMapSlice [(.vStr "command", .vStr (joinCommands inp))])]
  (.ok (), { rb with steps := rb.steps ++ [step] })

/-- Model of the Go method `runbook.AppendStep`: in keyed mode the step
key is appended before dispatching on the first token. -/
def appendStep (fns : ExternalFns) (rb : Runbook) (inp : List String) :
    Except String Unit × Runbook :=
  if inp.isEmpty then (.error "no argument", rb)
  else
    let tok0 := inp.headD ""
    let rb1 :=
      if rb.useMap then
        { rb with stepKeys := rb.stepKeys ++ [tok0 ++ toString rb.stepKeys.length] }
      else rb
    if strStarts tok0 "curl" then curlToStep fns rb1 inp
    else if strStarts tok0 "grpcurl" then grpcurlToStep fns rb1 inp
    else if inp.length = 1 then
      match axsLogToStep fns rb1 inp with
      | (.ok _, rb2) => (.ok (), rb2)
      | (.error _, rb2) => cmdToStep rb2 inp
    else cmdToStep rb1 inp

/-- Model of the Go struct `runbookMapped` after a successful YAML decode
(the decode itself is external). -/
structure RunbookMapped where
  desc : String
  runners : List (String × GoVal)
  vars : List (String × GoVal)
  steps : List (GoVal × GoVal)
  debug : Bool
  interval : String
  ifCond : String
  skipTest : Bool
  loop : Option GoVal
  concurrency : String
  force : Bool

/-- Model of the step loop of `parseRunbookMapped`: each item must be a
string key with a `yaml.MapSlice` value; key and step are appended before
the duplicate-key check, exactly as in the source. -/
def mappedSteps : List (GoVal × GoVal) → List String → Runbook → Except String Runbook
  | [], _, rb => .ok rb
  | (kv, vv) :: rest, seen, rb =>
    match kv with
    | .vStr k =>
      match vv with
      | .vMapSlice v =>
        let rb1 := { rb with stepKeys := rb.stepKeys ++ [k], steps := rb.steps ++ [v] }
        if k ∈ seen then .error ("duplicate step keys: " ++ k)
        else mappedSteps rest (seen ++ [k]) rb1
      | _ => .error "failed to parse as mapped steps"
    | _ => .error "failed to parse as mapped steps"

/-- Model of the Go function `parseRunbookMapped`, taking the outcome of
the external `yaml.Unmarshal` into `runbookMapped` as a parameter.  The
loop field and concurrency field are not carried over, as in the source. -/
def parseRunbookMapped (dec : Except String RunbookMapped) (rb : Runbook) :
    Except String Runbook :=
  match dec with
  | .error e => .error e
  | .ok m =>
    let rb1 :=
      { rb with useMap := true, desc := m.desc, runners := m.runners,
                vars := m.vars, debug := m.debug, interval := m.interval,
                ifCond := m.ifCond, skipTest := m.skipTest, force := m.force }
    mappedSteps m.steps [] rb1

/-- Modelled from the spec: the structured loop specification produced by
`newLoop` (whose code is not in this slice of the repository); kept as an
abstract wrapper, with the parse itself a parameter of `toBook`. -/
structure LoopSpec where
  raw : GoVal

/-- Model of the Go struct `book`, restricted to the fields `toBook`
assigns. -/
structure Book where
  desc : String
  runners : List (String × GoVal)
  vars : List (String × GoVal)
  rawSteps : List (List (String × GoVal))
  debug : Bool
  intervalStr : String
  ifCond : String
  skipTest : Bool
  force : Bool
  loop : Option LoopSpec
  concurrency : String
  useMap : Bool
  stepKeys : List String

/-- Model of the step loop of `toBook`: each raw step is normalized and
asserted to be a string-keyed mapping. -/
def stepsToRaw : List (List (GoVal × GoVal)) → Except String (List (List (String × GoVal)))
  | [] => .ok []
  | s :: rest =>
    match asMapStr (normalize (.vMapSlice s)) with
    | none => .error "failed to normalize step values"
    | some v =>
      match stepsToRaw rest with
      | .ok vs => .ok (v :: vs)
      | .error e => .error e

/-- The book assembled by a successful `toBook` run. -/
def mkBook (rb : Runbook) (rs vs : List (String × GoVal))
    (raws : List (List (String × GoVal))) (lp : Option LoopSpec) : Book :=
  { desc := rb.desc, runners := rs, vars := vs, rawSteps := raws,
    debug := rb.debug, intervalStr := rb.interval, ifCond := rb.ifCond,
    skipTest := rb.skipTest, force := rb.force, loop := lp,
    concurrency := rb.concurrency, useMap := rb.useMap, stepKeys := rb.stepKeys }

/-- Model of the Go method `runbook.toBook`, with the external `newLoop`
parser passed as a parameter. -/
def toBook (newLoopFn : GoVal → Except String LoopSpec) (rb : Runbook) :
    Except String Book :=
  match asMapStr (normalize (.vMapStr rb.runners)) with
  | none => .error "failed to normalize runners"
  | some rs =>
    match asMapStr (normalize (.vMapStr rb.vars)) with
    | none => .error "failed to normalize vars"
    | some vs =>
      match stepsToRaw rb.steps with
      | .error e => .error e
      | .ok raws =>
        match rb.loop with
        | none => .ok (mkBook rb rs vs raws none)
        | some l =>
          match newLoopFn l with
          | .error e => .error e
          | .ok sp => .ok (mkBook rb rs vs raws (some sp))

/-- Modelled from the spec: the per-context variable store (`store` is
declared elsewhere in the repository); `vars` is the variable mapping and
`steps` the recorded step results. -/
structure Store where
  vars : List (String × GoVal)
  steps : List GoVal

/-- Modelled from the spec: the execution context (`operator`), reduced to
what `includeRunner.Run` touches.  Runner instances are heap handles. -/
structure Operator where
  oid : Nat
  store : Store
  httpRunners : List (String × Nat)
  dbRunners : List (String × Nat)
  debug : Bool
  root : String

/-- The runner-instance heap: each handle carries its `operator` back
pointer, identified by operator id. -/
structure RunnerHeap where
  ops : List (Nat × Nat)

/-- Modelled from the spec: `store.toMap` snapshots the variable store. -/
def storeToMap (s : Store) : GoVal := .vMapStr s.vars

/-- Modelled from the spec: `operator.record` appends a step result. -/
def record (o : Operator) (v : GoVal) : Operator :=
  { o with store := { o.store with steps := o.store.steps ++ [v] } }

/-- Model of the `for k, v := range c.vars` override loop of
`includeRunner.Run`: mutates only the child store. -/
def overrideVars (o : Operator) (vars : List (String × GoVal)) : Operator :=
  { o with store :=
      { o.store with vars := vars.foldl (fun m p => mapSet m p.1 p.2) o.store.vars } }

/-- Sets the operator back pointer of the listed handles. -/
def heapSetAll (h : RunnerHeap) (hs : List Nat) (oid : Nat) : RunnerHeap :=
  { ops := h.ops.map (fun p => if p.1 ∈ hs then (p.1, oid) else p) }

/-- Model of the two re-homing loops of `includeRunner.Run`: every runner
instance in the child mapping gets its `operator` pointer set to the
parent. -/
def rehomeAll (h : RunnerHeap) (oo : Operator) (oid : Nat) : RunnerHeap :=
  heapSetAll (heapSetAll h (oo.httpRunners.map Prod.snd) oid) (oo.dbRunners.map Prod.snd) oid

/-- Model of the Go method `includeRunner.Run`.  Construction of the
nested operator (`newNestedOperator` plus `New`) and the child run
(`operator.Run`) are parameters, since the operator machinery is outside
this slice of the repository; both may transform the runner heap.  The
result is the returned error status with the final parent and heap. -/
def includeRunnerRun
    (construct : RunnerHeap → Except String Operator × RunnerHeap)
    (childRun : Operator → RunnerHeap → Except String Operator × RunnerHeap)
    (vars : List (String × GoVal))
    (parent : Operator) (heap : RunnerHeap) :
    Except String Unit × Operator × RunnerHeap :=
  match construct heap with
  | (.error e, heap1) => (.error e, parent, heap1)
  | (.ok oo, heap1) =>
    let oo1 := overrideVars oo vars
    match childRun oo1 heap1 with
    | (.error e, heap2) => (.error e, parent, heap2)
    | (.ok oo2, heap2) =>
      let parent1 := record parent (storeToMap oo2.store)
      (.ok (), parent1, rehomeAll heap2 oo2 parent.oid)

/-- Model of a token of the external YAML lexer: position, literal value,
whether a next token exists, and the (value, line) pairs of the preceding
tokens in the stream, nearest first (the `Prev` chain). -/
structure Tok where
  line : Nat
  col : Nat
  value : String
  hasNext : Bool
  prevs : List (String × Nat)

/-- Model of the external YAML AST as far as `detectRunbookAreas` inspects
it: string nodes, sequences, mappings (lists of key-value pairs) and
anything else. -/
inductive YNode where
  | strN (value : String) (tok : Tok)
  | seqN (values : List YNode) (tok : Tok)
  | mapN (values : List (YNode × YNode)) (tok : Tok)
  | otherN (tok : Tok)

/-- Model of `node.GetToken()`. -/
def tokOf : YNode → Tok
  | .strN _ t => t
  | .seqN _ t => t
  | .mapN _ t => t
  | .otherN t => t

mutual
/-- All tokens reachable from a node, in visit order, as walked by
`ast.Walk` with the `areaDetector` visitor. -/
def tokensOf : YNode → List Tok
  | .strN _ t => [t]
  | .otherN t => [t]
  | .seqN vs t => t :: tokensOfList vs
  | .mapN vs t => t :: tokensOfPairs vs

def tokensOfList : List YNode → List Tok
  | [] => []
  | v :: rest => tokensOf v ++ tokensOfList rest

def tokensOfPairs : List (YNode × YNode) → List Tok
  | [] => []
  | (k, v) :: rest => tokensOf k ++ tokensOf v ++ tokensOfPairs rest
end

/-- Model of the Go struct `area` (start and end line of a section). -/
structure Area where
  startLine : Nat
  endLine : Nat

/-- Model of the Go struct `areas`. -/
structure Areas where
  desc : Option Area
  runners : Option Area
  vars : Option Area
  steps : List Area

/-- The freshly allocated empty `areas` value. -/
def emptyAreas : Areas := { desc := none, runners := none, vars := none, steps := [] }

/-- One visitor step of `areaDetector.Visit`: keep the lexically earliest
token as start and the lexically latest as end. -/
def detUpdate (d : Tok × Tok) (t : Tok) : Tok × Tok :=
  let s := if d.1.line > t.line ∨ (d.1.line = t.line ∧ d.1.col > t.col) then t else d.1
  let e := if d.2.line < t.line ∨ (d.2.line = t.line ∧ d.2.col < t.col) then t else d.2
  (s, e)

/-- Model of Go `strings.Count(s, newline)`. -/
def countNl (s : String) : Nat := s.toList.countP (fun c => c = '\n')

/-- End-of-area adjustment of `detectAreaFromNode`: a terminal token whose
literal holds two or more newlines extends the end line when a following
token exists. -/
def areaOfDet (d : Tok × Tok) : Area :=
  let a : Area := { startLine := d.1.line, endLine := d.2.line }
  if countNl d.2.value - 1 > 0 then
    if d.2.hasNext then { a with endLine := a.endLine + (countNl d.2.value - 1) } else a
  else a

/-- Fold of the visitor over a token list (the first token initializes
both start and end, as in `areaDetector.Visit`). -/
def areaFromTokens : List Tok → Area
  | [] => { startLine := 0, endLine := 0 }
  | t :: ts => areaOfDet (ts.foldl detUpdate (t, t))

/-- Model of the Go function `detectAreaFromNode`. -/
def detectAreaFromNode (n : YNode) : Area := areaFromTokens (tokensOf n)

/-- Area of a mapping-value node (key plus value), used for the `desc`,
`vars`, `runners` sections and mapped steps. -/
def pairArea (k v : YNode) : Area := areaFromTokens (tokensOf k ++ tokensOf v)

/-- Scan of the `Prev` chain for the sequence-marker token. -/
def findDashPrevs : List (String × Nat) → Option Nat
  | [] => none
  | (v, l) :: rest => if v = "-" then some l else findDashPrevs rest

/-- Model of the backward token scan in the sequence branch of
`detectRunbookAreas` (the `for ... t = t.Prev` loop); `none` corresponds
to running off the chain, which in Go dereferences nil. -/
def findDash (t : Tok) : Option Nat :=
  if t.value = "-" then some t.line else findDashPrevs t.prevs

/-- Outcome of a Go computation that can return normally, return an
error, or panic. -/
inductive GoOutcome (α : Type) where
  | ok (val : α)
  | fail (msg : String)
  | panics

/-- Model of the sequence branch of the `steps` case of
`detectRunbookAreas`: each element area is widened upward to its `-`
token. -/
def seqStepsAreas : List YNode → GoOutcome (List Area)
  | [] => .ok []
  | v :: rest =>
    let aa := detectAreaFromNode v
    match findDash (tokOf v) with
    | none => .panics
    | some l =>
      match seqStepsAreas rest with
      | .ok rs => .ok ({ aa with startLine := l } :: rs)
      | .fail m => .fail m
      | .panics => .panics

/-- Model of the section loop of `detectRunbookAreas`: a non-string key
returns the areas collected so far. -/
def detectSections : Areas → List (YNode × YNode) → GoOutcome Areas
  | a, [] => .ok a
  | a, (k, v) :: rest =>
    match k with
    | .strN kv _ =>
      if kv = "desc" then detectSections { a with desc := some (pairArea k v) } rest
      else if kv = "vars" then detectSections { a with vars := some (pairArea k v) } rest
      else if kv = "runners" then detectSections { a with runners := some (pairArea k v) } rest
      else if kv = "steps" then
        match v with
        | .mapN vs _ =>
          detectSections { a with steps := a.steps ++ vs.map (fun p => pairArea p.1 p.2) } rest
        | .seqN vs _ =>
          match seqStepsAreas vs with
          | .ok rs => detectSections { a with steps := a.steps ++ rs } rest
          | .fail m => .fail m
          | .panics => .panics
        | _ => detectSections a rest
      else detectSections a rest
    | _ => .ok a

/-- Model of the Go function `detectRunbookAreas`, taking the outcome of
the external tokenize/parse (the body of the first document, or an
error) as a parameter. -/
def detectRunbookAreas (parsed : Except String YNode) : GoOutcome Areas :=
  match parsed with
  | .error _ => .ok emptyAreas
  | .ok body =>
    match body with
    | .mapN vs _ => detectSections emptyAreas vs
    | _ => .ok emptyAreas

/-- Modelled from the spec: the colorizer used for line numbers wraps the
text in a yellow ANSI escape. -/
def yellow (s : String) : String := "\x1b[33m" ++ s ++ "\x1b[0m"

/-- Model of the right-aligning width format of `pickStepYAML`. -/
def leftPad (w : Nat) (s : String) : String :=
  if s.length < w then String.mk (List.replicate (w - s.length) ' ') ++ s else s

/-- The list `s, s+1, ..., s+n-1`, used to state the picked line range. -/
def natRange (s : Nat) : Nat → List Nat
  | 0 => []
  | n + 1 => s :: natRange (s + 1) n

/-- Model of the `for i := start; i <= end; i++` loop of `pickStepYAML`;
indexing `lines[i-1]` with `i = 0` or past the end panics. -/
def numberLines (lines : List String) (w : Nat) (i e : Nat) : GoOutcome (List String) :=
  if i > e then .ok []
  else if i = 0 then .panics
  else
    match lines.get? (i - 1) with
    | none => .panics
    | some ln =>
      match numberLines lines w (i + 1) e with
      | .ok rest => .ok ((yellow (leftPad w (toString i) ++ " ") ++ ln) :: rest)
      | .fail m => .fail m
      | .panics => .panics
termination_by e + 1 - i

/-- The tail of `pickStepYAML` once a step area is selected: the
line-extent check and the line-numbering loop over the split document. -/
def pickStepLines (rep : String) (step : Area) : GoOutcome String :=
  if (strSplit rep "\n").length < step.endLine then .fail "line not found"
  else
    match numberLines (strSplit rep "\n") (toString step.endLine).length
        step.startLine step.endLine with
    | .ok picked => .ok (String.intercalate "\n" picked)
    | .fail m => .fail m
    | .panics => .panics

/-- The body of `pickStepYAML` on the detected areas: the Go
`len(a.Steps)-1 < idx` bound check (over `int`), then the
`a.Steps[idx]` access, which panics for a negative index. -/
def pickStepCore (rep : String) (a : Areas) (idx : Int) : GoOutcome String :=
  if (a.steps.length : Int) - 1 < idx then .fail "step not found"
  else if idx < 0 then .panics
  else
    match a.steps.get? idx.toNat with
    | none => .panics
    | some step => pickStepLines rep step

/-- Model of the Go function `pickStepYAML`, taking the outcome of the
external environment interpolation (`expand.ReplaceYAML`) and the
external YAML parse (as consumed by `detectRunbookAreas`) as parameters.
The step index is a Go `int`, hence `Int` here. -/
def pickStepYAML (replaced : Except String String)
    (parseFn : String → Except String YNode) (idx : Int) : GoOutcome String :=
  match replaced with
  | .error e => .fail e
  | .ok rep =>
    match detectRunbookAreas (parseFn rep) with
    | .fail m => .fail m
    | .panics => .panics
    | .ok a => pickStepCore rep a idx

/-- Concrete external functions used by witnesses: the grpcurl parse of a
bare `grpcurl` yields an empty address (no address argument was given),
everything else fails. -/
def fns0 : ExternalFns :=
  { curlParse := fun _ => .error "curl parse error"
    grpcurlParse := fun inp =>
      if inp = ["grpcurl"] then
        .ok { addr := "", method := "", subCmd := "", headers := [], messages := [] }
      else .error "grpcurl parse error"
    axsParse := fun _ => .error "not a log line"
    httpNewRequest := fun _ _ => .error "bad request"
    addHeader := fun r _ _ => r
    createHTTPStep := fun _ _ => .error "no step" }

/-- A fresh keyed-mode runbook. -/
def rbKeyed : Runbook := { NewRunbook "x" with useMap := true }

/-- A runbook whose single runner entry has key `req2` with an
http-family value: the counterexample input for claim C2. -/
def rbC2 : Runbook := { NewRunbook "x" with runners := [("req2", .vStr "http://b")] }

/-- A runbook already holding the destination `http://a` under `req`. -/
def rbC3 : Runbook := { NewRunbook "x" with runners := [("req", .vStr "http://a")] }

/-- A runbook whose two runner entries share the same destination value
(legal in Go: distinct keys, equal values). -/
def rbDup : Runbook :=
  { NewRunbook "x" with
      runners := [("a", .vStr "http://x"), ("b", .vStr "http://x")] }

/-- The reversed iteration order of the runner entries of `rbDup` — an
equally legal order for Go's randomized map iteration. -/
def rbDupRev : List (String × GoVal) :=
  [("b", .vStr "http://x"), ("a", .vStr "http://x")]

/-- A runbook with two runner entries holding distinct destination
values, so each destination is held by exactly one entry. -/
def rbTwo : Runbook :=
  { NewRunbook "x" with
      runners := [("req", .vStr "http://a"), ("db", .vStr "postgres://x")] }

/-- The reversed iteration order of the runner entries of `rbTwo`. -/
def rbTwoRev : List (String × GoVal) :=
  [("db", .vStr "postgres://x"), ("req", .vStr "http://a")]

/-- A loop parser that always fails, for witnesses. -/
def newLoopFail : GoVal → Except String LoopSpec := fun _ => .error "loop parse error"

/-- A concrete decoded mapped runbook with one step, for witnesses. -/
def decM : Except String RunbookMapped :=
  .ok { desc := "d", runners := [], vars := [],
        steps := [(.vStr "s1", .vMapSlice [(.vStr "exec", .vNil)])],
        debug := false, interval := "", ifCond := "", skipTest := false,
        loop := none, concurrency := "", force := false }

/-- Concrete include-model inputs for witnesses and counterexample. -/
def store0 : Store := { vars := [], steps := [] }

def parent0 : Operator :=
  { oid := 0, store := store0, httpRunners := [], dbRunners := [], debug := false, root := "" }

def child0 : Operator :=
  { oid := 1, store := store0, httpRunners := [("req", 7)], dbRunners := [], debug := false, root := "" }

def heap0 : RunnerHeap := { ops := [(7, 1)] }

def construct0 : RunnerHeap → Except String Operator × RunnerHeap :=
  fun h => (.ok child0, h)

def constructFail : RunnerHeap → Except String Operator × RunnerHeap :=
  fun h => (.error "book load failed", h)

def childRunOk : Operator → RunnerHeap → Except String Operator × RunnerHeap :=
  fun o h => (.ok o, h)

def childRunFail : Operator → RunnerHeap → Except String Operator × RunnerHeap :=
  fun _ h => (.error "child run failed", h)

/-- A parse function that always fails, for witnesses. -/
def parseFail : String → Except String YNode := fun _ => .error "parse error"

/-- Concrete tokens and document for the pickStepYAML witness: the text
is two lines, `steps:` and `- a`. -/
def tokSteps : Tok := { line := 1, col := 1, value := "steps", hasNext := true, prevs := [] }

def tokElem : Tok :=
  { line := 2, col := 3, value := "a", hasNext := false,
    prevs := [("-", 2), (":", 1), ("steps", 1)] }

def docNode : YNode :=
  .mapN [(.strN "steps" tokSteps, .seqN [.strN "a" tokElem] tokElem)] tokSteps

def parseDoc : String → Except String YNode := fun _ => .ok docNode

/-- The `steps` key token of a flow-style document
`steps: [\x7bdb: ...\x7d]`. -/
def tokStepsF : Tok := { line := 1, col := 1, value := "steps", hasNext := true, prevs := [] }

/-- The token of the flow-style sequence element: the tokens before it
are the brackets and the `steps` mapping key — no `-` marker anywhere,
since flow sequences use brackets instead. -/
def tokFlow : Tok :=
  { line := 1, col := 9, value := "db", hasNext := true,
    prevs := [("\x7b", 1), ("[", 1), (":", 1), ("steps", 1)] }

/-- The parsed body of the flow-style document
`steps: [\x7bdb: query\x7d]`: a mapping whose `steps` value is a
sequence node holding one mapping element. -/
def docFlow : YNode :=
  .mapN [(.strN "steps" tokStepsF,
          .seqN [.mapN [(.strN "db" tokFlow, .otherN tokFlow)] tokFlow] tokFlow)]
    tokStepsF

/-- The runbook produced by parsing the one-step mapped document `decM`. -/
def rbM : Runbook :=
  { desc := "d", runners := [], vars := [],
    steps := [[(.vStr "exec", .vNil)]],
    debug := false, interval := "", ifCond := "", skipTest := false,
    loop := none, concurrency := "", force := false,
    useMap := true, stepKeys := ["s1"] }

/-- The runbook produced by `appendStep fns0 rbKeyed` on the single token
`hello` (log-replay parsing fails, so it falls through to a shell step). -/
def rbH : Runbook :=
  { desc := "x", runners := [], vars := [],
    steps := [[(.vStr "exec", .vMapSlice [(.vStr "command", .vStr "hello\n")])]],
    debug := false, interval := "", ifCond := "", skipTest := false,
    loop := none, concurrency := "", force := false,
    useMap := true, stepKeys := ["hello0"] }

/-- The book produced by compiling `rbM`. -/
def bkM : Book :=
  { desc := "d", runners := [], vars := [],
    rawSteps := [[("exec", GoVal.vNil)]],
    debug := false, intervalStr := "", ifCond := "", skipTest := false,
    force := false, loop := none, concurrency := "", useMap := true,
    stepKeys := ["s1"] }

/-- The areas detected for the two-line document `steps:` / `- a`. -/
def areasW : Areas :=
  { desc := none, runners := none, vars := none,
    steps := [{ startLine := 2, endLine := 2 }] }

/-- Congruence of `List.map` restricted to members, proved here to avoid
depending on library lemma names. -/
theorem map_congr_mem {α β : Type} (f g : α → β) :
    ∀ l : List α, (∀ a ∈ l, f a = g a) → l.map f = l.map g := by
  intro l
  induction l with
  | nil => intro _; rfl
  | cons a rest ih =>
    intro h
    simp only [List.map_cons]
    rw [h a (by simp), ih (fun b hb => h b (by simp [hb]))]

/-- Replacing the value at a key does not change the key sequence. -/
theorem map_replace_fst (m : List (String × GoVal)) (k : String) (v : GoVal) :
    (m.map (fun p => if p.1 = k then (k, v) else p)).map Prod.fst = m.map Prod.fst := by
  induction m with
  | nil => rfl
  | cons p rest ih =>
    simp only [List.map_cons]
    rw [ih]
    by_cases hp : p.1 = k
    · simp [if_pos hp, hp]
    · simp [if_neg hp]

/-- Keys after a `mapSet`: unchanged when the key was present, extended by
the key otherwise. -/
theorem mapSet_fst (m : List (String × GoVal)) (k : String) (v : GoVal) :
    (mapSet m k v).map Prod.fst =
      if k ∈ m.map Prod.fst then m.map Prod.fst else m.map Prod.fst ++ [k] := by
  unfold mapSet
  split
  · exact map_replace_fst m k v
  · simp

/-- Every element of `mapSet m k v` is the new binding or an old element. -/
theorem mapSet_mem (m : List (String × GoVal)) (k : String) (v : GoVal) :
    ∀ p ∈ mapSet m k v, p = (k, v) ∨ p ∈ m := by
  unfold mapSet
  split
  · intro p hp
    rcases List.mem_map.mp hp with ⟨q, hq, hEq⟩
    by_cases h : q.1 = k
    · left; rw [← hEq, if_pos h]
    · right; rw [← hEq, if_neg h]; exact hq
  · intro p hp
    rcases List.mem_append.mp hp with h | h
    · right; exact h
    · left; simpa using h

/-- The keys of a map built by repeated `mapSet` are distinct. -/
theorem buildMap_aux_fst_nodup :
    ∀ (ps acc : List (String × GoVal)), (acc.map Prod.fst).Nodup →
      ((ps.foldl (fun acc p => mapSet acc p.1 p.2) acc).map Prod.fst).Nodup := by
  intro ps
  induction ps with
  | nil => intro acc h; simpa using h
  | cons p rest ih =>
    intro acc hacc
    simp only [List.foldl_cons]
    apply ih
    rw [mapSet_fst]
    split
    · exact hacc
    · rename_i hmem
      simp [List.nodup_append, hacc, hmem]

theorem buildMap_fst_nodup (ps : List (String × GoVal)) :
    ((buildMap ps).map Prod.fst).Nodup :=
  buildMap_aux_fst_nodup ps [] (by simp)

/-- Every value stored in a built map is one of the assigned values. -/
theorem buildMap_aux_mem :
    ∀ (ps acc : List (String × GoVal)) (p : String × GoVal),
      p ∈ ps.foldl (fun acc p => mapSet acc p.1 p.2) acc →
      p ∈ acc ∨ p.2 ∈ ps.map Prod.snd := by
  intro ps
  induction ps with
  | nil => intro acc p hp; left; simpa using hp
  | cons q rest ih =>
    intro acc p hp
    simp only [List.foldl_cons] at hp
    rcases ih (mapSet acc q.1 q.2) p hp with h | h
    · rcases mapSet_mem acc q.1 q.2 p h with h2 | h2
      · right; rw [h2]; simp
      · left; exact h2
    · right; simp [h]

theorem buildMap_mem_snd (ps : List (String × GoVal)) (p : String × GoVal)
    (hp : p ∈ buildMap ps) : p.2 ∈ ps.map Prod.snd := by
  rcases buildMap_aux_mem ps [] p hp with h | h
  · simp at h
  · exact h

theorem mapSet_not_mem_eq (m : List (String × GoVal)) (k : String) (v : GoVal)
    (h : k ∉ m.map Prod.fst) : mapSet m k v = m ++ [(k, v)] := by
  unfold mapSet
  rw [if_neg h]

/-- Building a map from bindings with distinct keys is the identity. -/
theorem buildMap_aux_self :
    ∀ (ps acc : List (String × GoVal)), (((acc ++ ps).map Prod.fst)).Nodup →
      ps.foldl (fun acc p => mapSet acc p.1 p.2) acc = acc ++ ps := by
  intro ps
  induction ps with
  | nil => intro acc _; simp
  | cons p rest ih =>
    intro acc hnd
    simp only [List.foldl_cons]
    have hk : p.1 ∉ acc.map Prod.fst := by
      simp only [List.map_append, List.map_cons, List.nodup_append] at hnd
      intro hmem
      exact hnd.2.2 hmem (List.mem_cons_self _ _)
    rw [mapSet_not_mem_eq acc p.1 p.2 hk]
    have heq : (acc ++ [(p.1, p.2)]) ++ rest = acc ++ ((p.1, p.2) :: rest) := by simp
    have hnd2 : (((acc ++ [(p.1, p.2)]) ++ rest).map Prod.fst).Nodup := by
      rw [heq]; simpa using hnd
    rw [ih (acc ++ [(p.1, p.2)]) hnd2, heq]

theorem buildMap_self (ps : List (String × GoVal))
    (h : (ps.map Prod.fst).Nodup) : buildMap ps = ps := by
  have := buildMap_aux_self ps [] (by simpa using h)
  simpa using this

theorem normList_eq_map (xs : List GoVal) : normList xs = xs.map normalize := by
  induction xs with
  | nil => simp [normList]
  | cons x rest ih => simp [normList, ih]

theorem normStrPairs_eq_map (xs : List (String × GoVal)) :
    normStrPairs xs = xs.map (fun p => (p.1, normalize p.2)) := by
  induction xs with
  | nil => simp [normStrPairs]
  | cons p rest ih =>
    obtain ⟨k, v⟩ := p
    simp [normStrPairs, ih]

theorem normAnyPairs_eq_map (xs : List (GoVal × GoVal)) :
    normAnyPairs xs = xs.map (fun p => (goFmt p.1, normalize p.2)) := by
  induction xs with
  | nil => simp [normAnyPairs]
  | cons p rest ih =>
    obtain ⟨k, v⟩ := p
    simp [normAnyPairs, ih]

theorem normSlicePairs_eq_map (xs : List (GoVal × GoVal)) :
    normSlicePairs xs = xs.map (fun p => (goFmt p.1, normalize p.2)) := by
  induction xs with
  | nil => simp [normSlicePairs]
  | cons p rest ih =>
    obtain ⟨k, v⟩ := p
    simp [normSlicePairs, ih]

/-- The `[]map[string]any` arm never hits its error branch: normalizing a
string-keyed map always yields a string-keyed map. -/
theorem normMapList_eq (xs : List (List (String × GoVal))) :
    normMapList xs = .ok (xs.map fun m => buildMap (normStrPairs m)) := by
  induction xs with
  | nil => simp [normMapList]
  | cons m rest ih => simp [normMapList, normalize, asMapStr, ih]

/-- Maps whose values are already normal are fixed by the map-valued arm of
`normalize`. -/
theorem normStrPairs_id (m : List (String × GoVal))
    (h : ∀ p ∈ m, normalize p.2 = p.2) : normStrPairs m = m := by
  rw [normStrPairs_eq_map]
  induction m with
  | nil => rfl
  | cons p rest ih =>
    simp only [List.map_cons]
    rw [h p (by simp)]
    rw [ih (fun q hq => h q (by simp [hq]))]

theorem buildMap_norm_fixed (ys : List (String × GoVal))
    (h : ∀ v ∈ ys.map Prod.snd, normalize v = v) :
    buildMap (normStrPairs (buildMap ys)) = buildMap ys := by
  have hv : ∀ p ∈ buildMap ys, normalize p.2 = p.2 :=
    fun p hp => h _ (buildMap_mem_snd ys p hp)
  rw [normStrPairs_id _ hv, buildMap_self _ (buildMap_fst_nodup ys)]

/-- Size bound used when recursing into the second component of a pair. -/
theorem sizeOf_snd_lt {α : Type} [SizeOf α] (p : α × GoVal) :
    sizeOf p.2 < sizeOf p := by
  obtain ⟨a, b⟩ := p
  simp_arith

theorem normalize_idem_aux :
    ∀ (fuel : Nat) (x : GoVal), sizeOf x ≤ fuel →
      normalize (normalize x) = normalize x := by
  intro fuel
  induction fuel with
  | zero =>
    intro x hx
    exact absurd hx (by cases x <;> simp_arith)
  | succ n ih =>
    intro x hx
    cases x with
    | vList xs =>
      have hxs : sizeOf xs ≤ n := by simp_arith at hx; omega
      simp only [normalize, normList_eq_map, List.map_map]
      congr 1
      apply map_congr_mem
      intro y hy
      have hlt := List.sizeOf_lt_of_mem hy
      exact ih y (by omega)
    | vMapStr xs =>
      have hxs : sizeOf xs ≤ n := by simp_arith at hx; omega
      simp only [normalize]
      congr 1
      apply buildMap_norm_fixed
      intro v hv
      rw [normStrPairs_eq_map] at hv
      simp only [List.map_map] at hv
      rcases List.mem_map.mp hv with ⟨q, hq, hEq⟩
      have hlt := List.sizeOf_lt_of_mem hq
      have hlt2 := sizeOf_snd_lt q
      rw [← hEq]
      exact ih q.2 (by omega)
    | vMapAny xs =>
      have hxs : sizeOf xs ≤ n := by simp_arith at hx; omega
      simp only [normalize]
      congr 1
      apply buildMap_norm_fixed
      intro v hv
      rw [normAnyPairs_eq_map] at hv
      simp only [List.map_map] at hv
      rcases List.mem_map.mp hv with ⟨q, hq, hEq⟩
      have hlt := List.sizeOf_lt_of_mem hq
      have hlt2 := sizeOf_snd_lt q
      rw [← hEq]
      exact ih q.2 (by omega)
    | vMapSlice xs =>
      have hxs : sizeOf xs ≤ n := by simp_arith at hx; omega
      simp only [normalize]
      congr 1
      apply buildMap_norm_fixed
      intro v hv
      rw [normSlicePairs_eq_map] at hv
      simp only [List.map_map] at hv
      rcases List.mem_map.mp hv with ⟨q, hq, hEq⟩
      have hlt := List.sizeOf_lt_of_mem hq
      have hlt2 := sizeOf_snd_lt q
      rw [← hEq]
      exact ih q.2 (by omega)
    | vListMapStr xs =>
      have hxs : sizeOf xs ≤ n := by simp_arith at hx; omega
      simp only [normalize, normMapList_eq, List.map_map]
      congr 1
      apply map_congr_mem
      intro m hm
      simp only [Function.comp]
      have hmlt := List.sizeOf_lt_of_mem hm
      apply buildMap_norm_fixed
      intro v hv
      rw [normStrPairs_eq_map] at hv
      simp only [List.map_map] at hv
      rcases List.mem_map.mp hv with ⟨q, hq, hEq⟩
      have hlt := List.sizeOf_lt_of_mem hq
      have hlt2 := sizeOf_snd_lt q
      rw [← hEq]
      exact ih q.2 (by omega)
    | vInt m =>
      by_cases h : m < 0
      · simp [normalize, h]
      · simp [normalize, h]
    | vNil => simp [normalize]
    | vBool b => simp [normalize]
    | vInt64 m => simp [normalize]
    | vUInt64 m => simp [normalize]
    | vStr s => simp [normalize]
    | vErr msg => simp [normalize]
    | vOther tag => simp [normalize]

/-- C4: `normalize` is total (it is a Lean function on all of `GoVal`) and
idempotent: `normalize (normalize x) = normalize x` for every value `x`. -/
theorem c4_normalize_idempotent (x : GoVal) :
    normalize (normalize x) = normalize x :=
  normalize_idem_aux (sizeOf x) x (Nat.le_refl _)

/-- C5: integer normalization is sign-aware: a negative native integer is
widened to a signed 64-bit value and a non-negative one to an unsigned
64-bit value; in particular `normalize (-5)` is `int64 (-5)` and
`normalize 5` is `uint64 5`. -/
theorem c5_normalize_int_sign :
    (∀ m : Int, m < 0 → normalize (.vInt m) = .vInt64 m) ∧
    (∀ m : Int, 0 ≤ m → normalize (.vInt m) = .vUInt64 m.toNat) ∧
    normalize (.vInt (-5)) = .vInt64 (-5) ∧
    normalize (.vInt 5) = .vUInt64 5 := by
  refine ⟨?_, ?_, ?_, ?_⟩
  · intro m h; simp [normalize, h]
  · intro m h; simp [normalize, not_lt.mpr h]
  · simp [normalize]
  · simp [normalize]

/-- Witness for C5 at concrete inputs -7 and 7. -/
theorem c5_normalize_int_sign_witness :
    ((-7 : Int) < 0 ∧ normalize (.vInt (-7)) = .vInt64 (-7)) ∧
    ((0 : Int) ≤ 7 ∧ normalize (.vInt 7) = .vUInt64 7) :=
  ⟨⟨by norm_num, c5_normalize_int_sign.1 (-7) (by norm_num)⟩,
   ⟨by norm_num, c5_normalize_int_sign.2.1 7 (by norm_num)⟩⟩

/-- When no entry holds the destination, the scanning loop of `setRunner`
completes and yields the three family counts. -/
theorem scanRunners_counts (dsn : String) :
    ∀ rs : List (String × GoVal), (∀ p ∈ rs, p.2 ≠ .vStr dsn) →
      scanRunners dsn rs = .counts (countHttp rs) (countGrpc rs) (countOther rs) := by
  intro rs
  induction rs with
  | nil => intro _; simp [scanRunners, countHttp, countGrpc, countOther]
  | cons q rest ih =>
    intro h
    have hrest := ih (fun p hp => h p (by simp [hp]))
    obtain ⟨k, v⟩ := q
    cases v
    case vStr vv =>
      have hne : vv ≠ dsn := by
        intro hc
        exact h (k, .vStr vv) (by simp) (by simp [hc])
      by_cases h1 : strStarts vv "http" = true
      · simp [scanRunners, hne, hrest, countHttp, countGrpc, countOther,
              List.countP_cons, h1]
      · by_cases h2 : strStarts vv "grpc" = true
        · simp [scanRunners, hne, hrest, countHttp, countGrpc, countOther,
                List.countP_cons, h1, h2]
        · simp [scanRunners, hne, hrest, countHttp, countGrpc, countOther,
                List.countP_cons, h1, h2]
    all_goals
      simp [scanRunners, hrest, countHttp, countGrpc, countOther, List.countP_cons]

/-- A non-matching head entry passes a `found` result of the tail
through unchanged. -/
theorem scanRunners_cons_found (dsn k0 : String) (v : GoVal)
    (rest : List (String × GoVal)) (k2 : String)
    (hv : v ≠ .vStr dsn) (hk2 : scanRunners dsn rest = .found k2) :
    scanRunners dsn ((k0, v) :: rest) = .found k2 := by
  cases v with
  | vStr vv =>
    have hne : vv ≠ dsn := by
      intro hc
      exact hv (by rw [hc])
    simp [scanRunners, hne, hk2]
  | vNil => simp [scanRunners, hk2]
  | vBool b => simp [scanRunners, hk2]
  | vInt n => simp [scanRunners, hk2]
  | vInt64 n => simp [scanRunners, hk2]
  | vUInt64 n => simp [scanRunners, hk2]
  | vErr m => simp [scanRunners, hk2]
  | vOther t => simp [scanRunners, hk2]
  | vList xs => simp [scanRunners, hk2]
  | vMapAny xs => simp [scanRunners, hk2]
  | vMapStr xs => simp [scanRunners, hk2]
  | vListMapStr xs => simp [scanRunners, hk2]
  | vMapSlice xs => simp [scanRunners, hk2]

/-- When some entry holds the destination, the scanning loop returns the
key of such an entry. -/
theorem scanRunners_found (dsn : String) :
    ∀ rs : List (String × GoVal), (∃ p ∈ rs, p.2 = .vStr dsn) →
      ∃ k, scanRunners dsn rs = .found k ∧ (k, GoVal.vStr dsn) ∈ rs := by
  intro rs
  induction rs with
  | nil => intro h; simp at h
  | cons q rest ih =>
    intro h
    by_cases hq : q.2 = .vStr dsn
    · refine ⟨q.1, ?_, ?_⟩
      · obtain ⟨k0, v⟩ := q
        simp only at hq
        rw [hq]
        simp [scanRunners]
      · rw [← hq]
        simp
    · have hrest : ∃ p ∈ rest, p.2 = .vStr dsn := by
        rcases h with ⟨p, hp, hpv⟩
        rcases List.mem_cons.mp hp with h1 | h1
        · exact absurd hpv (by rw [h1]; exact hq)
        · exact ⟨p, h1, hpv⟩
      rcases ih hrest with ⟨k2, hk2, hmem⟩
      refine ⟨k2, ?_, by simp [hmem]⟩
      obtain ⟨k0, v⟩ := q
      exact scanRunners_cons_found dsn k0 v rest k2 hq hk2

/-- C2 counterexample: with runners `req2 -> http://b` (a user-chosen key)
and fresh destination `http://a`, the allocated key `req2` collides with
the existing key, the insertion overwrites it, and the http family count
does not increase. -/
theorem c2_counterexample :
    (setRunner rbC2 "http://a").1 = "req2" ∧
    "req2" ∈ rbC2.runners.map Prod.fst ∧
    countHttp (setRunner rbC2 "http://a").2.runners = countHttp rbC2.runners ∧
    (∀ p ∈ rbC2.runners, p.2 ≠ GoVal.vStr "http://a") := by
  refine ⟨rfl, by simp [rbC2, NewRunbook], rfl, ?_⟩
  intro p hp
  simp only [rbC2, NewRunbook] at hp
  simp only [List.mem_singleton] at hp
  subst hp
  simp

/-- C2 (amended): for a fresh destination, `setRunner` classifies the
destination into one of the three families, assigns the bare family
prefix when that family count is zero and prefix+(count+1) otherwise,
inserts the destination under that key (overwriting an equal existing
key) and returns it; when the assigned key is not already present, that
family's count grows by exactly one. -/
theorem c2_setRunner_fresh (rb : Runbook) (dsn : String)
    (h : ∀ p ∈ rb.runners, p.2 ≠ .vStr dsn) :
    setRunner rb dsn = (allocKey rb.runners dsn,
      { rb with runners := mapSet rb.runners (allocKey rb.runners dsn) (.vStr dsn) }) ∧
    (allocKey rb.runners dsn ∉ rb.runners.map Prod.fst →
      famCount (mapSet rb.runners (allocKey rb.runners dsn) (.vStr dsn)) dsn
        = famCount rb.runners dsn + 1) := by
  constructor
  · unfold setRunner
    rw [scanRunners_counts dsn rb.runners h]
    rfl
  · intro hfresh
    rw [mapSet_not_mem_eq _ _ _ hfresh]
    unfold famCount
    by_cases h1 : strStarts dsn "http" = true
    · simp [h1, countHttp, List.countP_append]
    · by_cases h2 : strStarts dsn "grpc" = true
      · simp [h1, h2, countGrpc, List.countP_append]
      · simp [h1, h2, countOther, List.countP_append]

/-- Witness for C2 (amended): the first http destination on an empty
runner map gets the bare key `req`. -/
theorem c2_setRunner_fresh_witness :
    setRunner (NewRunbook "x") "http://a" =
      ("req", { NewRunbook "x" with runners := [("req", GoVal.vStr "http://a")] }) := by
  have h2 := (c2_setRunner_fresh (NewRunbook "x") "http://a"
    (by intro p hp; simp [NewRunbook] at hp)).1
  simpa [allocKey, countHttp, countGrpc, countOther, mapSet, NewRunbook] using h2

/-- `setRunner` is `setRunnerIter` at the association-list order. -/
theorem setRunner_eq_iter (rb : Runbook) (dsn : String) :
    setRunner rb dsn = setRunnerIter rb.runners rb dsn := rfl

/-- C3 counterexample: with two runner entries holding the same
destination value, two legal iteration orders of the same runner map
return different keys, so an identical destination does not always yield
an identical key; the mapping is still left unchanged by both. -/
theorem c3_counterexample :
    List.Perm rbDup.runners rbDupRev ∧
    (setRunnerIter rbDup.runners rbDup "http://x").1 = "a" ∧
    (setRunnerIter rbDupRev rbDup "http://x").1 = "b" ∧
    (setRunnerIter rbDup.runners rbDup "http://x").2 = rbDup ∧
    (setRunnerIter rbDupRev rbDup "http://x").2 = rbDup ∧
    "a" ≠ "b" := by
  refine ⟨List.Perm.swap _ _ _, rfl, rfl, rfl, rfl, by decide⟩

/-- C3 (amended): under every iteration order of the runner map, when
some entry's value equals the destination, `setRunner` returns the key
of one of the entries holding that value and leaves the runbook (in
particular its runner mapping) entirely unchanged; the returned key is
the same across all iteration orders — i.e. allocation is deterministic
— whenever only one entry holds the destination value. -/
theorem c3_setRunner_reuse_any_order (rb : Runbook) (dsn : String)
    (order : List (String × GoVal)) (hperm : List.Perm rb.runners order)
    (h : ∃ p ∈ rb.runners, p.2 = .vStr dsn) :
    (setRunnerIter order rb dsn).2 = rb ∧
    ((setRunnerIter order rb dsn).1, GoVal.vStr dsn) ∈ rb.runners ∧
    ((∀ k1 k2, (k1, GoVal.vStr dsn) ∈ rb.runners →
        (k2, GoVal.vStr dsn) ∈ rb.runners → k1 = k2) →
      ∀ order2, List.Perm rb.runners order2 →
        (setRunnerIter order2 rb dsn).1 = (setRunnerIter order rb dsn).1) := by
  have hord : ∃ p ∈ order, p.2 = .vStr dsn := by
    rcases h with ⟨p, hp, hv⟩
    exact ⟨p, hperm.mem_iff.mp hp, hv⟩
  rcases scanRunners_found dsn order hord with ⟨k, hk, hmem⟩
  have hmem2 : (k, GoVal.vStr dsn) ∈ rb.runners := hperm.mem_iff.mpr hmem
  refine ⟨?_, ?_, ?_⟩
  · unfold setRunnerIter
    rw [hk]
  · unfold setRunnerIter
    rw [hk]
    exact hmem2
  · intro huniq order2 hperm2
    have hord2 : ∃ p ∈ order2, p.2 = .vStr dsn := by
      rcases h with ⟨p, hp, hv⟩
      exact ⟨p, hperm2.mem_iff.mp hp, hv⟩
    rcases scanRunners_found dsn order2 hord2 with ⟨k2, hk2, hmem3⟩
    have hmem4 : (k2, GoVal.vStr dsn) ∈ rb.runners := hperm2.mem_iff.mpr hmem3
    unfold setRunnerIter
    rw [hk, hk2]
    exact huniq k2 k hmem4 hmem2

/-- Witness for C3 (amended) at a concrete two-runner map whose entries
hold distinct values: the entry holding `http://a` is unique, so the
reversed iteration order returns the same key `req`. -/
theorem c3_setRunner_reuse_any_order_witness :
    (setRunnerIter rbTwo.runners rbTwo "http://a").2 = rbTwo ∧
    ((setRunnerIter rbTwo.runners rbTwo "http://a").1, GoVal.vStr "http://a") ∈ rbTwo.runners ∧
    (setRunnerIter rbTwoRev rbTwo "http://a").1
      = (setRunnerIter rbTwo.runners rbTwo "http://a").1 := by
  have hthm := c3_setRunner_reuse_any_order rbTwo "http://a" rbTwo.runners
    (List.Perm.refl _)
    ⟨("req", .vStr "http://a"), by simp [rbTwo, NewRunbook], rfl⟩
  refine ⟨hthm.1, hthm.2.1, ?_⟩
  exact hthm.2.2
    (by
      intro k1 k2 h1 h2
      simp only [rbTwo, NewRunbook] at h1 h2
      simp at h1 h2
      rw [h1, h2])
    rbTwoRev (List.Perm.swap _ _ _)

/-- `setRunner` only touches the runner mapping. -/
theorem setRunner_steps (rb : Runbook) (dsn : String) :
    (setRunner rb dsn).2.steps = rb.steps := by
  unfold setRunner
  cases scanRunners dsn rb.runners with
  | found k => rfl
  | counts hc gc dc => rfl

theorem setRunner_stepKeys (rb : Runbook) (dsn : String) :
    (setRunner rb dsn).2.stepKeys = rb.stepKeys := by
  unfold setRunner
  cases scanRunners dsn rb.runners with
  | found k => rfl
  | counts hc gc dc => rfl

/-- A successful `curlToStep` appends exactly one step and leaves the
step-key list unchanged. -/
theorem curlToStep_ok (fns : ExternalFns) (rb rbres : Runbook)
    (inp : List String) (u : Unit)
    (h : curlToStep fns rb inp = (.ok u, rbres)) :
    rbres.steps.length = rb.steps.length + 1 ∧ rbres.stepKeys = rb.stepKeys := by
  unfold curlToStep at h
  split at h
  · simp at h
  · simp only [] at h
    split at h
    · simp at h
    · injection h with h1 h2
      subst h2
      simp [setRunner_steps, setRunner_stepKeys]

/-- A successful `grpcurlToStep` appends exactly one step and leaves the
step-key list unchanged. -/
theorem grpcurlToStep_ok (fns : ExternalFns) (rb rbres : Runbook)
    (inp : List String) (u : Unit)
    (h : grpcurlToStep fns rb inp = (.ok u, rbres)) :
    rbres.steps.length = rb.steps.length + 1 ∧ rbres.stepKeys = rb.stepKeys := by
  unfold grpcurlToStep at h
  split at h
  · simp at h
  · split at h
    · simp at h
    · simp only [] at h
      injection h with h1 h2
      subst h2
      simp [setRunner_steps, setRunner_stepKeys]

/-- A successful `axsLogToStep` appends exactly one step and leaves the
step-key list unchanged. -/
theorem axsLogToStep_ok (fns : ExternalFns) (rb rbres : Runbook)
    (inp : List String) (u : Unit)
    (h : axsLogToStep fns rb inp = (.ok u, rbres)) :
    rbres.steps.length = rb.steps.length + 1 ∧ rbres.stepKeys = rb.stepKeys := by
  unfold axsLogToStep at h
  split at h
  · simp at h
  · simp only [] at h
    split at h
    · simp at h
    · split at h
      · simp at h
      · injection h with h1 h2
        subst h2
        simp [setRunner_steps, setRunner_stepKeys]

/-- A failing `axsLogToStep` leaves steps and step keys unchanged (only
the runner mapping may have gained the dummy entry). -/
theorem axsLogToStep_err (fns : ExternalFns) (rb rbres : Runbook)
    (inp : List String) (e : String)
    (h : axsLogToStep fns rb inp = (.error e, rbres)) :
    rbres.steps = rb.steps ∧ rbres.stepKeys = rb.stepKeys := by
  unfold axsLogToStep at h
  split at h
  · injection h with h1 h2
    subst h2
    exact ⟨rfl, rfl⟩
  · simp only [] at h
    split at h
    · injection h with h1 h2
      subst h2
      exact ⟨setRunner_steps _ _, setRunner_stepKeys _ _⟩
    · split at h
      · injection h with h1 h2
        subst h2
        exact ⟨setRunner_steps _ _, setRunner_stepKeys _ _⟩
      · simp at h

/-- `cmdToStep` always succeeds, appending exactly one step. -/
theorem cmdToStep_res (rb : Runbook) (inp : List String) :
    cmdToStep rb inp =
      (.ok (), { rb with steps := rb.steps ++
        [[(.vStr execRunnerKey, GoVal.vMapSlice [(.vStr "command", .vStr (joinCommands inp))])]] }) := by
  rfl

/-- A successful `appendStep` in keyed mode preserves the key/step length
invariant. -/
theorem appendStep_ok_invariant (fns : ExternalFns) (rb rbres : Runbook)
    (inp : List String) (u : Unit)
    (hmap : rb.useMap = true)
    (hlen : rb.stepKeys.length = rb.steps.length)
    (h : appendStep fns rb inp = (.ok u, rbres)) :
    rbres.stepKeys.length = rbres.steps.length := by
  unfold appendStep at h
  split at h
  · simp at h
  · simp only [hmap, if_true] at h
    split at h
    · obtain ⟨h1, h2⟩ := curlToStep_ok fns _ rbres inp u h
      rw [h1, h2]
      simp [hlen]
    · split at h
      · obtain ⟨h1, h2⟩ := grpcurlToStep_ok fns _ rbres inp u h
        rw [h1, h2]
        simp [hlen]
      · split at h
        · split at h
          · rename_i val rb2 heq
            injection h with h1 h2
            subst h2
            obtain ⟨h1, h2⟩ := axsLogToStep_ok fns _ rb2 inp val heq
            rw [h1, h2]
            simp [hlen]
          · rename_i er rb2 heq
            obtain ⟨h1, h2⟩ := axsLogToStep_err fns _ rb2 inp er heq
            rw [cmdToStep_res] at h
            injection h with h3 h4
            subst h4
            simp [h1, h2, hlen]
        · rw [cmdToStep_res] at h
          injection h with h3 h4
          subst h4
          simp [hlen]

/-- The step loop of `parseRunbookMapped` appends keys and steps in
lockstep. -/
theorem mappedSteps_invariant :
    ∀ (items : List (GoVal × GoVal)) (seen : List String) (rb rbres : Runbook),
      rb.stepKeys.length = rb.steps.length →
      mappedSteps items seen rb = .ok rbres →
      rbres.stepKeys.length = rbres.steps.length := by
  intro items
  induction items with
  | nil =>
    intro seen rb rbres hlen h
    simp [mappedSteps] at h
    rw [← h]
    exact hlen
  | cons q rest ih =>
    intro seen rb rbres hlen h
    obtain ⟨kv, vv⟩ := q
    unfold mappedSteps at h
    split at h
    · simp only [] at h
      split at h
      · split at h
        · simp at h
        · exact ih _ _ rbres (by simp [hlen]) h
      · simp at h
    · simp at h

/-- `parseRunbookMapped` preserves the key/step length invariant. -/
theorem parseRunbookMapped_invariant (dec : Except String RunbookMapped)
    (rb rbres : Runbook)
    (hlen : rb.stepKeys.length = rb.steps.length)
    (h : parseRunbookMapped dec rb = .ok rbres) :
    rbres.stepKeys.length = rbres.steps.length := by
  unfold parseRunbookMapped at h
  split at h
  · simp at h
  · exact mappedSteps_invariant _ _ _ rbres (by simpa using hlen) h

/-- Normalizing a string-keyed map always yields a string-keyed map. -/
theorem asMapStr_norm_vMapStr (m : List (String × GoVal)) :
    asMapStr (normalize (.vMapStr m)) = some (buildMap (normStrPairs m)) := by
  simp [normalize, asMapStr]

/-- Normalizing a `yaml.MapSlice` always yields a string-keyed map. -/
theorem asMapStr_norm_vMapSlice (s : List (GoVal × GoVal)) :
    asMapStr (normalize (.vMapSlice s)) = some (buildMap (normSlicePairs s)) := by
  simp [normalize, asMapStr]

/-- The step-normalization loop of `toBook` never fails. -/
theorem stepsToRaw_eq (ss : List (List (GoVal × GoVal))) :
    stepsToRaw ss = .ok (ss.map fun s => buildMap (normSlicePairs s)) := by
  induction ss with
  | nil => simp [stepsToRaw]
  | cons s rest ih => simp [stepsToRaw, asMapStr_norm_vMapSlice, ih]

/-- Closed form of `toBook` for a loop-free runbook: the three
normalization error branches are unreachable. -/
theorem toBook_none (lf : GoVal → Except String LoopSpec) (rb : Runbook)
    (hl : rb.loop = none) :
    toBook lf rb = .ok (mkBook rb (buildMap (normStrPairs rb.runners))
      (buildMap (normStrPairs rb.vars))
      (rb.steps.map fun s => buildMap (normSlicePairs s)) none) := by
  unfold toBook
  rw [asMapStr_norm_vMapStr, asMapStr_norm_vMapStr, stepsToRaw_eq, hl]

/-- Closed form of `toBook` when the loop field is present: the result is
decided by the loop parser alone. -/
theorem toBook_some (lf : GoVal → Except String LoopSpec) (rb : Runbook)
    (l : GoVal) (hl : rb.loop = some l) :
    toBook lf rb =
      match lf l with
      | .error e => Except.error e
      | .ok sp => Except.ok (mkBook rb (buildMap (normStrPairs rb.runners))
          (buildMap (normStrPairs rb.vars))
          (rb.steps.map fun s => buildMap (normSlicePairs s)) (some sp)) := by
  unfold toBook
  rw [asMapStr_norm_vMapStr, asMapStr_norm_vMapStr, stepsToRaw_eq, hl]

/-- `toBook` fails exactly with the loop parser's error when the loop
field is present and fails to parse. -/
theorem toBook_some_err (lf : GoVal → Except String LoopSpec) (rb : Runbook)
    (l : GoVal) (e : String) (hl : rb.loop = some l) (hlf : lf l = .error e) :
    toBook lf rb = .error e := by
  rw [toBook_some lf rb l hl, hlf]

/-- Closed form of `toBook` when the loop field parses. -/
theorem toBook_some_ok (lf : GoVal → Except String LoopSpec) (rb : Runbook)
    (l : GoVal) (sp : LoopSpec) (hl : rb.loop = some l) (hlf : lf l = .ok sp) :
    toBook lf rb = .ok (mkBook rb (buildMap (normStrPairs rb.runners))
      (buildMap (normStrPairs rb.vars))
      (rb.steps.map fun s => buildMap (normSlicePairs s)) (some sp)) := by
  rw [toBook_some lf rb l hl, hlf]

/-- C10: the three `failed to normalize` branches of `toBook` are
unreachable: `toBook` can fail only while parsing a non-nil loop field,
and succeeds whenever the loop field is absent or parses. -/
theorem c10_toBook_loop_only (lf : GoVal → Except String LoopSpec) (rb : Runbook) :
    (∀ e, toBook lf rb = .error e → ∃ l, rb.loop = some l ∧ lf l = .error e) ∧
    (rb.loop = none → ∃ bk, toBook lf rb = .ok bk) ∧
    (∀ l sp, rb.loop = some l → lf l = .ok sp → ∃ bk, toBook lf rb = .ok bk) := by
  refine ⟨?_, ?_, ?_⟩
  · intro e he
    cases hl : rb.loop with
    | none =>
      rw [toBook_none lf rb hl] at he
      simp at he
    | some l =>
      cases hlf : lf l with
      | error e2 =>
        rw [toBook_some_err lf rb l e2 hl hlf] at he
        injection he with he3
        exact ⟨l, rfl, by rw [hlf, he3]⟩
      | ok sp =>
        rw [toBook_some_ok lf rb l sp hl hlf] at he
        simp at he
  · intro hl
    exact ⟨_, toBook_none lf rb hl⟩
  · intro l sp hl hlf
    exact ⟨_, toBook_some_ok lf rb l sp hl hlf⟩

/-- Witness for C10: a loop-free runbook compiles even under an
always-failing loop parser. -/
theorem c10_toBook_loop_only_witness :
    ∃ bk, toBook newLoopFail rbM = .ok bk :=
  (c10_toBook_loop_only newLoopFail rbM).2.1 rfl

/-- A successful `toBook` keeps the step-key list and gives one raw step
per parsed step. -/
theorem toBook_lengths (lf : GoVal → Except String LoopSpec) (rb : Runbook)
    (bk : Book) (h : toBook lf rb = .ok bk) :
    bk.stepKeys = rb.stepKeys ∧ bk.rawSteps.length = rb.steps.length := by
  cases hl : rb.loop with
  | none =>
    rw [toBook_none lf rb hl] at h
    injection h with h2
    rw [← h2]
    simp [mkBook]
  | some l =>
    cases hlf : lf l with
    | error e2 =>
      rw [toBook_some_err lf rb l e2 hl hlf] at h
      simp at h
    | ok sp =>
      rw [toBook_some_ok lf rb l sp hl hlf] at h
      injection h with h2
      rw [← h2]
      simp [mkBook]

/-- C1 counterexample: in keyed mode, an `AppendStep` call that returns
an error (here a grpcurl capture with no address) appends a step key but
no step, so `len(stepKeys) = len(steps)` is broken after the call. -/
theorem c1_counterexample :
    rbKeyed.useMap = true ∧
    rbKeyed.stepKeys.length = rbKeyed.steps.length ∧
    (appendStep fns0 rbKeyed ["grpcurl"]).1 = .error "unsupported grpcurl command" ∧
    (appendStep fns0 rbKeyed ["grpcurl"]).2.stepKeys.length = 1 ∧
    (appendStep fns0 rbKeyed ["grpcurl"]).2.steps.length = 0 :=
  ⟨rfl, rfl, rfl, rfl, rfl⟩

/-- C1 (amended): `len(stepKeys) = len(steps)` holds after parsing a
keyed document, is preserved by every `AppendStep` call that succeeds,
and carries through `toBook`; an erroring `AppendStep` can break it. -/
theorem c1_keyed_invariant :
    (∀ (dec : Except String RunbookMapped) (rb rbres : Runbook),
        rb.stepKeys.length = rb.steps.length →
        parseRunbookMapped dec rb = .ok rbres →
        rbres.stepKeys.length = rbres.steps.length) ∧
    (∀ (fns : ExternalFns) (rb rbres : Runbook) (inp : List String) (u : Unit),
        rb.useMap = true →
        rb.stepKeys.length = rb.steps.length →
        appendStep fns rb inp = (.ok u, rbres) →
        rbres.stepKeys.length = rbres.steps.length) ∧
    (∀ (lf : GoVal → Except String LoopSpec) (rb : Runbook) (bk : Book),
        rb.stepKeys.length = rb.steps.length →
        toBook lf rb = .ok bk →
        bk.stepKeys.length = bk.rawSteps.length) := by
  refine ⟨?_, ?_, ?_⟩
  · intro dec rb rbres hlen h
    exact parseRunbookMapped_invariant dec rb rbres hlen h
  · intro fns rb rbres inp u hmap hlen h
    exact appendStep_ok_invariant fns rb rbres inp u hmap hlen h
  · intro lf rb bk hlen h
    obtain ⟨h1, h2⟩ := toBook_lengths lf rb bk h
    rw [h1, h2, hlen]

/-- Witness for C1 (amended): a parsed one-step keyed document, a
successful keyed `AppendStep`, and a compile all keep the lengths equal. -/
theorem c1_keyed_invariant_witness :
    rbM.stepKeys.length = rbM.steps.length ∧
    rbH.stepKeys.length = rbH.steps.length ∧
    bkM.stepKeys.length = bkM.rawSteps.length := by
  refine ⟨c1_keyed_invariant.1 decM (NewRunbook "") rbM rfl (by rfl),
          c1_keyed_invariant.2.1 fns0 rbKeyed rbH ["hello"] () rfl rfl (by rfl),
          c1_keyed_invariant.2.2 newLoopFail rbM bkM rfl ?_⟩
  rw [toBook_none newLoopFail rbM rfl]
  simp [rbM, bkM, mkBook, normStrPairs, normSlicePairs, buildMap, mapSet,
        normalize, goFmt]

/-- C6: if constructing the nested operator or running the child fails,
`includeRunner.Run` propagates the error verbatim and returns with the
parent (its store included) exactly as before the call. -/
theorem c6_include_failure
    (construct : RunnerHeap → Except String Operator × RunnerHeap)
    (childRun : Operator → RunnerHeap → Except String Operator × RunnerHeap)
    (vars : List (String × GoVal)) (parent : Operator) (heap : RunnerHeap)
    (e : String)
    (h : (∃ h1, construct heap = (.error e, h1)) ∨
         (∃ oo h1 h2, construct heap = (.ok oo, h1) ∧
            childRun (overrideVars oo vars) h1 = (.error e, h2))) :
    (includeRunnerRun construct childRun vars parent heap).1 = .error e ∧
    (includeRunnerRun construct childRun vars parent heap).2.1 = parent := by
  rcases h with ⟨h1, hc⟩ | ⟨oo, h1, h2, hc, hr⟩
  · unfold includeRunnerRun
    rw [hc]
    exact ⟨rfl, rfl⟩
  · unfold includeRunnerRun
    rw [hc]
    simp only []
    rw [hr]
    exact ⟨rfl, rfl⟩

/-- Witness for C6: a failing construction leaves the parent untouched. -/
theorem c6_include_failure_witness :
    (includeRunnerRun constructFail childRunOk [] parent0 heap0).1 = .error "book load failed" ∧
    (includeRunnerRun constructFail childRunOk [] parent0 heap0).2.1 = parent0 :=
  c6_include_failure constructFail childRunOk [] parent0 heap0 "book load failed"
    (Or.inl ⟨heap0, rfl⟩)

/-- Elements of a re-pointed heap: a listed handle now carries the new
operator id, an unlisted one is an original entry. -/
theorem heapSetAll_mem (h : RunnerHeap) (hs : List Nat) (oid : Nat) :
    ∀ p ∈ (heapSetAll h hs oid).ops,
      (p.1 ∈ hs → p.2 = oid) ∧ (p.1 ∉ hs → p ∈ h.ops) := by
  intro p hp
  unfold heapSetAll at hp
  simp only [List.mem_map] at hp
  rcases hp with ⟨q, hq, hEq⟩
  by_cases hmem : q.1 ∈ hs
  · rw [if_pos hmem] at hEq
    constructor
    · intro _
      rw [← hEq]
    · intro hn
      exact absurd (by rw [← hEq] at hn ⊢; exact hmem) hn
  · rw [if_neg hmem] at hEq
    constructor
    · intro hin
      rw [← hEq] at hin
      exact absurd hin hmem
    · intro _
      rw [← hEq]
      exact hq

/-- After `rehomeAll`, every handle appearing in the child's runner
mappings points at the given operator id. -/
theorem rehomeAll_mem (h : RunnerHeap) (oo : Operator) (oid : Nat) :
    ∀ p ∈ (rehomeAll h oo oid).ops,
      (p.1 ∈ oo.httpRunners.map Prod.snd ∨ p.1 ∈ oo.dbRunners.map Prod.snd) →
      p.2 = oid := by
  intro p hp hfam
  unfold rehomeAll at hp
  have houter := heapSetAll_mem _ _ _ p hp
  by_cases hdb : p.1 ∈ oo.dbRunners.map Prod.snd
  · exact houter.1 hdb
  · have hp2 := houter.2 hdb
    have hinner := heapSetAll_mem _ _ _ p hp2
    rcases hfam with hh | hd
    · exact hinner.1 hh
    · exact absurd hd hdb

/-- C7 (amended): a successful include appends the child's final store
snapshot as a recorded result on the parent, leaves the parent's runner
mappings and variables untouched, and re-points the operator field of
every runner instance in the child's mappings to the parent; it does not
add child-created runners to the parent's runner mapping. -/
theorem c7_include_success
    (construct : RunnerHeap → Except String Operator × RunnerHeap)
    (childRun : Operator → RunnerHeap → Except String Operator × RunnerHeap)
    (vars : List (String × GoVal)) (parent : Operator) (heap : RunnerHeap)
    (oo oo2 : Operator) (h1 h2 : RunnerHeap)
    (hc : construct heap = (.ok oo, h1))
    (hr : childRun (overrideVars oo vars) h1 = (.ok oo2, h2)) :
    includeRunnerRun construct childRun vars parent heap =
      (.ok (), record parent (storeToMap oo2.store), rehomeAll h2 oo2 parent.oid) ∧
    (record parent (storeToMap oo2.store)).httpRunners = parent.httpRunners ∧
    (record parent (storeToMap oo2.store)).dbRunners = parent.dbRunners ∧
    (record parent (storeToMap oo2.store)).store.vars = parent.store.vars ∧
    (record parent (storeToMap oo2.store)).store.steps
      = parent.store.steps ++ [storeToMap oo2.store] ∧
    (∀ p ∈ (rehomeAll h2 oo2 parent.oid).ops,
      (p.1 ∈ oo2.httpRunners.map Prod.snd ∨ p.1 ∈ oo2.dbRunners.map Prod.snd) →
      p.2 = parent.oid) := by
  refine ⟨?_, rfl, rfl, rfl, rfl, rehomeAll_mem h2 oo2 parent.oid⟩
  unfold includeRunnerRun
  rw [hc]
  simp only []
  rw [hr]

/-- Witness for C7 (amended) on concrete inputs. -/
theorem c7_include_success_witness :
    includeRunnerRun construct0 childRunOk [] parent0 heap0 =
      (.ok (), record parent0 (storeToMap child0.store),
        rehomeAll heap0 child0 parent0.oid) :=
  (c7_include_success construct0 childRunOk [] parent0 heap0
    child0 child0 heap0 heap0 rfl rfl).1

/-- C7 counterexample: a successful include whose child mapping holds a
runner (key `req`, instance 7) the parent never had; afterwards the
parent's runner mapping is still empty, so the instance is not reachable
from it under the child's key. -/
theorem c7_counterexample :
    (includeRunnerRun construct0 childRunOk [] parent0 heap0).1 = .ok () ∧
    child0.httpRunners = [("req", 7)] ∧
    parent0.httpRunners = [] ∧
    (includeRunnerRun construct0 childRunOk [] parent0 heap0).2.1.httpRunners = [] :=
  ⟨rfl, rfl, rfl, rfl⟩

/-- C9 (amended): on parse failure, or when the first document's body is
not a mapping, `detectRunbookAreas` returns the empty areas value rather
than an error or a crash.  (It is not crash-free on every input: see the
flow-style sequence counterexample, where the backward scan for the `-`
marker runs off the token chain.) -/
theorem c9_detect_silent (parsed : Except String YNode)
    (h : (∃ e, parsed = .error e) ∨
         (∃ body, parsed = .ok body ∧ ∀ vs t, body ≠ .mapN vs t)) :
    detectRunbookAreas parsed = .ok emptyAreas := by
  rcases h with ⟨e, he⟩ | ⟨body, hb, hnm⟩
  · rw [he]
    rfl
  · rw [hb]
    unfold detectRunbookAreas
    cases body with
    | mapN vs t => exact absurd rfl (hnm vs t)
    | strN s t => rfl
    | seqN vs t => rfl
    | otherN t => rfl

/-- Witness for C9 at a concrete failed parse. -/
theorem c9_detect_silent_witness :
    detectRunbookAreas (.error "parse error") = .ok emptyAreas :=
  c9_detect_silent (.error "parse error") (Or.inl ⟨"parse error", rfl⟩)

/-- C9 counterexample: `detectRunbookAreas` does abort its caller on a
document that parses fine into a top-level mapping whose `steps` value
is a flow-style sequence: the element's token chain holds no `-` marker
(flow sequences use brackets), so the backward `Prev` scan runs off the
chain — a nil-pointer dereference in Go, `.panics` in the model. -/
theorem c9_counterexample :
    detectRunbookAreas (.ok docFlow) = .panics ∧
    (∃ vs t, docFlow = YNode.mapN vs t) :=
  ⟨rfl, ⟨_, _, rfl⟩⟩

/-- Closed form of the line-numbering loop when the range is in bounds:
each line from start to end, prefixed with its padded, colorized number. -/
theorem numberLines_eq (lines : List String) (w : Nat) :
    ∀ (k i e : Nat), e + 1 - i ≤ k → 1 ≤ i → e ≤ lines.length →
      numberLines lines w i e =
        .ok ((natRange i (e + 1 - i)).map
          (fun j => yellow (leftPad w (toString j) ++ " ") ++ lines.getD (j - 1) "")) := by
  intro k
  induction k with
  | zero =>
    intro i e hk h1 he
    have hgt : i > e := by omega
    unfold numberLines
    rw [if_pos hgt]
    have h0 : e + 1 - i = 0 := by omega
    rw [h0]
    rfl
  | succ n ih =>
    intro i e hk h1 he
    by_cases hie : i > e
    · unfold numberLines
      rw [if_pos hie]
      have h0 : e + 1 - i = 0 := by omega
      rw [h0]
      rfl
    · unfold numberLines
      rw [if_neg hie]
      rw [if_neg (by omega : ¬ i = 0)]
      have hlt : i - 1 < lines.length := by omega
      rw [List.get?_eq_get hlt]
      rw [ih (i + 1) e (by omega) (by omega) he]
      have h0 : e + 1 - i = (e + 1 - (i + 1)) + 1 := by omega
      rw [h0]
      simp only [natRange, List.map_cons]
      rw [List.getD_eq_get?, List.get?_eq_get hlt]
      rfl

/-- `pickStepYAML` reduces to `pickStepCore` once interpolation and area
detection succeed. -/
theorem pickStepYAML_ok (rep : String) (parseFn : String → Except String YNode)
    (idx : Int) (a : Areas)
    (hd : detectRunbookAreas (parseFn rep) = .ok a) :
    pickStepYAML (.ok rep) parseFn idx = pickStepCore rep a idx := by
  show (match detectRunbookAreas (parseFn rep) with
    | GoOutcome.fail m => GoOutcome.fail m
    | GoOutcome.panics => GoOutcome.panics
    | GoOutcome.ok a2 => pickStepCore rep a2 idx) = pickStepCore rep a idx
  rw [hd]

/-- `pickStepCore` reduces to `pickStepLines` for an in-range index. -/
theorem pickStepCore_inRange (rep : String) (a : Areas) (idx : Nat)
    (step : Area) (hstep : a.steps.get? idx = some step) :
    pickStepCore rep a (idx : Int) = pickStepLines rep step := by
  have hidx : idx < a.steps.length := by
    rcases List.get?_eq_some.mp hstep with ⟨h, _⟩
    exact h
  unfold pickStepCore
  rw [if_neg (by omega : ¬ ((a.steps.length : Int) - 1 < (idx : Int)))]
  rw [if_neg (by omega : ¬ ((idx : Int) < 0))]
  rw [show ((idx : Int)).toNat = idx by simp]
  rw [hstep]

/-- C8 counterexample: with a negative index, `pickStepYAML` does not
fail with a structured error: the Go bound check `len(a.Steps)-1 < idx`
passes and `a.Steps[idx]` panics. -/
theorem c8_counterexample :
    pickStepYAML (.ok "a") parseFail (-1) = .panics := rfl

/-- C8 (amended): for every input text and non-negative step index,
`pickStepYAML` fails with a structured error if the index is out of
range of the detected step areas or the step's end line exceeds the
document's line count, and otherwise returns exactly the lines from the
step's start line through its end line, each prefixed with a
right-aligned constant-width colorized line number. -/
theorem c8_pick_nonneg (rep : String) (parseFn : String → Except String YNode)
    (idx : Nat) (a : Areas)
    (hd : detectRunbookAreas (parseFn rep) = .ok a) :
    (a.steps.length ≤ idx →
       pickStepYAML (.ok rep) parseFn (idx : Int) = .fail "step not found") ∧
    (∀ step, a.steps.get? idx = some step →
       (strSplit rep "\n").length < step.endLine →
       pickStepYAML (.ok rep) parseFn (idx : Int) = .fail "line not found") ∧
    (∀ step, a.steps.get? idx = some step →
       1 ≤ step.startLine → step.endLine ≤ (strSplit rep "\n").length →
       pickStepYAML (.ok rep) parseFn (idx : Int) =
         .ok (String.intercalate "\n"
           ((natRange step.startLine (step.endLine + 1 - step.startLine)).map
             (fun j => yellow (leftPad (toString step.endLine).length (toString j) ++ " ")
               ++ (strSplit rep "\n").getD (j - 1) "")))) := by
  refine ⟨?_, ?_, ?_⟩
  · intro hle
    rw [pickStepYAML_ok rep parseFn _ a hd]
    unfold pickStepCore
    rw [if_pos (by omega : (a.steps.length : Int) - 1 < (idx : Int))]
  · intro step hstep hline
    rw [pickStepYAML_ok rep parseFn _ a hd,
        pickStepCore_inRange rep a idx step hstep]
    unfold pickStepLines
    rw [if_pos hline]
  · intro step hstep hstart hend
    rw [pickStepYAML_ok rep parseFn _ a hd,
        pickStepCore_inRange rep a idx step hstep]
    unfold pickStepLines
    rw [if_neg (by omega : ¬ (strSplit rep "\n").length < step.endLine)]
    rw [numberLines_eq (strSplit rep "\n") (toString step.endLine).length
        (step.endLine + 1 - step.startLine) step.startLine step.endLine
        (Nat.le_refl _) hstart hend]

/-- Witness for C8 (amended): the document `steps:` / `- a` with index 0
yields the second line with a colorized line number, and index 1 is
rejected. -/
theorem c8_pick_nonneg_witness :
    pickStepYAML (.ok "steps:\n- a") parseDoc 0 = .ok ("\x1b[33m2 \x1b[0m- a") ∧
    pickStepYAML (.ok "steps:\n- a") parseDoc 1 = .fail "step not found" := by
  constructor
  · have h3 := (c8_pick_nonneg "steps:\n- a" parseDoc 0 areasW rfl).2.2
      { startLine := 2, endLine := 2 } rfl (by norm_num) (by rfl)
    exact h3
  · exact (c8_pick_nonneg "steps:\n- a" parseDoc 1 areasW rfl).1 (by rfl)

end Runn
